import Mathlib

/-!
Shallow embedding of the `bdg` directory-comparison tool (src/index.ts).

Paths are modelled as strings joined with "/" (the platform separator of the
modelled platform).  A directory tree is modelled by `FSNode`; nodes that make
the underlying filesystem calls fail are explicit constructors
(`unreadableDir`: `readdirSync` throws; `statFail`: `statSync` throws).
Regular expressions are external to the repository (the host regex engine),
so matchers are boolean predicates on strings and compilation of a pattern
string is modelled by an abstract `RegexEngine`.
-/

namespace Bdg

/-- A compiled ignore matcher: tests a root-relative path string
(the result of `RegExp.prototype.test`). -/
abbrev Matcher := String → Bool

/-- A directory tree as seen by the traversal.  `dir` carries the entry list
that `readdirSync` returns, in filesystem order.  `unreadableDir` is a
directory on which `statSync` succeeds but `readdirSync` throws;
`statFail` is an entry on which `statSync` itself throws. -/
inductive FSNode where
  | file : FSNode
  | dir : List (String × FSNode) → FSNode
  | unreadableDir : FSNode
  | statFail : FSNode

/-- A filesystem error thrown during traversal (`readdirSync` or `statSync`). -/
inductive FsError where
  | cannotList (path : String) : FsError
  | cannotStat (path : String) : FsError
deriving Repr, DecidableEq

/-- An error escaping `compareDirectories`: an invalid ignore pattern
(the `SyntaxError` thrown by `new RegExp`, the spec's `InvalidPatternError`)
or a propagated filesystem error. -/
inductive CompareError where
  | invalidPattern (s : String) : CompareError
  | fsError (e : FsError) : CompareError
deriving Repr, DecidableEq

/-- Node-style `path.join` for the shapes this program uses:
`join(dir, rel)` and the relative-path accumulation of the traversal
(`relative(base, join(current, entry))` equals `pathJoin curRel entry`
when `current` sits at relative path `curRel` under `base`). -/
def pathJoin (a b : String) : String := if a = "" then b else a ++ "/" ++ b

/-- The ignore test of `collectPaths`:
`ignorePatterns.some(pattern => pattern.test(relativePath))`. -/
def matchesAny (ms : List Matcher) (r : String) : Bool := ms.any (fun m => m r)

/-- Embeds the body of `collectPaths` (src/index.ts lines 48-69): iterate over
the entries of the current directory (at relative path `cur` below the base),
skip any entry whose relative path matches a pattern, recurse into directories
and emit the relative paths of files.  A thrown filesystem error is the
`.error` case and aborts the whole collection. -/
def collectEntries (entries : List (String × FSNode)) (cur : String)
    (ms : List Matcher) : Except FsError (List String) :=
  match entries with
  | [] => .ok []
  | (name, child) :: rest =>
    let rel := pathJoin cur name
    if matchesAny ms rel then
      collectEntries rest cur ms
    else
      match child with
      | .statFail => .error (.cannotStat rel)
      | .unreadableDir => .error (.cannotList rel)
      | .file =>
        match collectEntries rest cur ms with
        | .error e => .error e
        | .ok tail => .ok (rel :: tail)
      | .dir es =>
        match collectEntries es rel ms with
        | .error e => .error e
        | .ok sub =>
          match collectEntries rest cur ms with
          | .error e => .error e
          | .ok tail => .ok (sub ++ tail)

/-- Embeds `collectPaths(baseDir, baseDir, ms)`: list the root and walk it.
A root that is not a listable directory makes `readdirSync` throw. -/
def collectPaths (t : FSNode) (ms : List Matcher) : Except FsError (List String) :=
  match t with
  | .dir entries => collectEntries entries "" ms
  | _ => .error (.cannotList "")

/-- An ignore pattern as accepted by `compareDirectories`:
a raw string or an already-compiled `RegExp`. -/
inductive Pattern where
  | str (s : String) : Pattern
  | regex (m : Matcher) : Pattern

/-- Modelled from the spec: the regular-expression engine is the host
platform's and is external to the repository.  `compile s` returns
`some matcher` when `s` is a syntactically valid regular expression and
`none` when it is not (in which case `new RegExp(s)` throws). -/
structure RegexEngine where
  compile : String → Option Matcher

/-- Embeds the pattern-compilation step of `compareDirectories`
(src/index.ts lines 80-82): map over the patterns, pass compiled ones
through unchanged, compile strings with `new RegExp`; the first invalid
string throws before any traversal. -/
def compilePatterns (E : RegexEngine) : List Pattern → Except CompareError (List Matcher)
  | [] => .ok []
  | .regex m :: ps =>
    match compilePatterns E ps with
    | .error e => .error e
    | .ok rest => .ok (m :: rest)
  | .str s :: ps =>
    match E.compile s with
    | none => .error (.invalidPattern s)
    | some m =>
      match compilePatterns E ps with
      | .error e => .error e
      | .ok rest => .ok (m :: rest)

/-- Boolean lexicographic comparison of character lists, the order
JavaScript's default string comparison uses. -/
def charListLe : List Char → List Char → Bool
  | [], _ => true
  | _ :: _, [] => false
  | a :: as, b :: bs =>
    if a < b then true
    else if b < a then false
    else charListLe as bs

/-- Boolean string comparison (`a <= b` in JavaScript's default sort order). -/
def strLe (a b : String) : Bool := charListLe a.data b.data

/-- Insert a string into a sorted list, keeping it sorted. -/
def orderedInsertStr (x : String) : List String → List String
  | [] => [x]
  | y :: ys => if strLe x y then x :: y :: ys else y :: orderedInsertStr x ys

/-- JavaScript `Array.prototype.sort()` with no comparator on an array of
strings: lexicographic ascending.  String order is total and antisymmetric,
so the sorted permutation of a list is unique and every correct sort computes
the same list; the embedding uses insertion sort (structurally recursive, so
concrete runs evaluate).  `stringSort_sorted` and `stringSort_perm` below
establish the two properties that characterise it. -/
def stringSort : List String → List String
  | [] => []
  | x :: xs => orderedInsertStr x (stringSort xs)

/-- Embeds `paths1.filter(path => !paths2.includes(path))`. -/
def onlyInFirstRel (paths1 paths2 : List String) : List String :=
  paths1.filter (fun p => !(paths2.contains p))

/-- Embeds `paths2.filter(path => !paths1.includes(path))`. -/
def onlyInSecondRel (paths1 paths2 : List String) : List String :=
  paths2.filter (fun p => !(paths1.contains p))

/-- Embeds `paths1.filter(path => paths2.includes(path))`. -/
def inBothRel (paths1 paths2 : List String) : List String :=
  paths1.filter (fun p => paths2.contains p)

/-- The three-way partition returned by `compareDirectories`. -/
structure DiffResult where
  onlyInFirst : List String
  onlyInSecond : List String
  inBoth : List String
deriving Repr, DecidableEq

/-- Embeds `compareDirectories` (src/index.ts lines 74-96): compile the
patterns, collect and sort both trees, partition by membership in the other
sorted list, and reattach each root with `join`.  `tree1`/`tree2` are the
filesystem contents of `dir1`/`dir2`. -/
def compareDirectories (E : RegexEngine) (tree1 tree2 : FSNode) (dir1 dir2 : String)
    (ignorePatterns : List Pattern) : Except CompareError DiffResult :=
  match compilePatterns E ignorePatterns with
  | .error e => .error e
  | .ok ms =>
    match collectPaths tree1 ms with
    | .error e => .error (.fsError e)
    | .ok l1 =>
      match collectPaths tree2 ms with
      | .error e => .error (.fsError e)
      | .ok l2 =>
        let paths1 := stringSort l1
        let paths2 := stringSort l2
        .ok { onlyInFirst := (onlyInFirstRel paths1 paths2).map (pathJoin dir1)
              onlyInSecond := (onlyInSecondRel paths1 paths2).map (pathJoin dir2)
              inBoth := (inBothRel paths1 paths2).map (pathJoin dir1) }

/-- Embeds `printDifferences` (src/index.ts lines 101-121) as the list of
printed lines, in order.  `dir1`/`dir2` stand for the already-resolved
absolute roots (`resolve` is the identity on them). -/
def printDifferences (dir1 dir2 : String) (d : DiffResult) : List String :=
  let header := ["Directory Structure Comparison:", "==============================="]
  if d.onlyInFirst.length = 0 && d.onlyInSecond.length = 0 then
    header ++ ["✅ Directories are identical"]
  else
    header
      ++ (if 0 < d.onlyInFirst.length then
            ("Only in \"" ++ dir1 ++ "\":") :: d.onlyInFirst.map (fun p => " - " ++ p)
          else [])
      ++ (if 0 < d.onlyInSecond.length then
            ("Only in \"" ++ dir2 ++ "\":") :: d.onlyInSecond.map (fun p => " - " ++ p)
          else [])
      ++ ["Found " ++ toString d.inBoth.length ++ " identical paths, "
            ++ toString (d.onlyInFirst.length + d.onlyInSecond.length) ++ " differences"]

/-- The configuration consumed by the core. -/
structure BdgConfig where
  ignorePaths : List String
deriving Repr, DecidableEq

/-- The observable state of `.bdgrc.json`, abstracting the external
filesystem and JSON parser: absent (`existsSync` false), `readError`
(`readFileSync` throws), `malformed` (`JSON.parse` throws or the property
access throws), `parsedNotArray` (parses but `ignorePaths` is missing or not
an array), or `parsedArray l` (parses with `ignorePaths` a valid array). -/
inductive ConfigFile where
  | absent : ConfigFile
  | readError : ConfigFile
  | malformed : ConfigFile
  | parsedNotArray : ConfigFile
  | parsedArray (paths : List String) : ConfigFile

/-- Embeds `loadConfig` (src/index.ts lines 17-43), branch for branch:
absent file warns and falls back; a throw from reading or parsing is caught
and falls back; a non-array `ignorePaths` warns and falls back; a valid
array is returned unchanged. -/
def loadConfig (f : ConfigFile) : BdgConfig :=
  match f with
  | .absent => { ignorePaths := [] }
  | .readError => { ignorePaths := [] }
  | .malformed => { ignorePaths := [] }
  | .parsedNotArray => { ignorePaths := [] }
  | .parsedArray l => { ignorePaths := l }

/-- A real filesystem entry name: nonempty and without the path separator.
`readdirSync` only ever returns such names. -/
def goodName (s : String) : Bool := !(s.data.isEmpty) && !(s.data.contains '/')

mutual

/-- All entry names in the tree are real filesystem names (mutual with
`goodEntries` over the nested entry lists). -/
def goodTree : FSNode → Bool
  | .dir entries => goodEntries entries
  | _ => true

/-- All entry names in an entry list and its subtrees are real names. -/
def goodEntries : List (String × FSNode) → Bool
  | [] => true
  | (name, child) :: rest => goodName name && goodTree child && goodEntries rest

end

/-- The relative path of the chain of entry names `names` below a directory
whose own relative path is `cur` (folding the separator join). -/
def relOfFrom (cur : String) (names : List String) : String :=
  names.foldl pathJoin cur

/-- `NodeAt t names target`: starting from tree `t` and following the entry
names `names` through directory nodes reaches `target`. -/
inductive NodeAt : FSNode → List String → FSNode → Prop where
  | nil (t : FSNode) : NodeAt t [] t
  | cons {entries : List (String × FSNode)} {name : String} {child target : FSNode}
      {names : List String} : (name, child) ∈ entries → NodeAt child names target →
      NodeAt (.dir entries) (name :: names) target

/-- `CleanChain ms t cur names`: below the directory `t` (at relative path
`cur`) the entry-name chain `names` leads to a file, and no link of the chain
has a relative path matching any of `ms` — exactly the chains the collector
walks to the files it emits. -/
inductive CleanChain (ms : List Matcher) : FSNode → String → List String → Prop where
  | file {entries : List (String × FSNode)} {name cur : String} :
      (name, FSNode.file) ∈ entries → matchesAny ms (pathJoin cur name) = false →
      CleanChain ms (.dir entries) cur [name]
  | dir {entries : List (String × FSNode)} {name cur : String} {child : FSNode}
      {names : List String} : (name, child) ∈ entries →
      matchesAny ms (pathJoin cur name) = false →
      CleanChain ms child (pathJoin cur name) names →
      CleanChain ms (.dir entries) cur (name :: names)

/-- `FailReach ms t cur`: below the directory `t` (at relative path `cur`)
there is a non-ignored entry, reachable through non-ignored directories, on
which `statSync` or `readdirSync` throws. -/
inductive FailReach (ms : List Matcher) : FSNode → String → Prop where
  | stat {entries : List (String × FSNode)} {name cur : String} :
      (name, FSNode.statFail) ∈ entries →
      matchesAny ms (pathJoin cur name) = false → FailReach ms (.dir entries) cur
  | unreadable {entries : List (String × FSNode)} {name cur : String} :
      (name, FSNode.unreadableDir) ∈ entries →
      matchesAny ms (pathJoin cur name) = false → FailReach ms (.dir entries) cur
  | deeper {entries : List (String × FSNode)} {name cur : String} {child : FSNode} :
      (name, child) ∈ entries → matchesAny ms (pathJoin cur name) = false →
      FailReach ms child (pathJoin cur name) → FailReach ms (.dir entries) cur

/-- The processing of a non-ignored child entry at relative path `rel`
throws: `statSync` throws on it, or it is a directory whose listing (or some
recursive step below it) throws. -/
def childFails (ms : List Matcher) (rel : String) : FSNode → Prop
  | .statFail => True
  | .unreadableDir => True
  | .file => False
  | .dir es => ∀ l, collectEntries es rel ms ≠ .ok l

/-- A sample regex engine for concrete runs: `"("` is the one invalid
pattern string; a valid pattern matches the paths it is a prefix of. -/
def sampleEngine : RegexEngine :=
  ⟨fun s => if s = "(" then none else some (fun r => s.isPrefixOf r)⟩

/-- The tree of spec scenario 1, first root: files `a.txt` and `b/c.txt`. -/
def sampleTree1 : FSNode := .dir [("a.txt", .file), ("b", .dir [("c.txt", .file)])]

/-- The tree of spec scenario 1, second root: files `a.txt` and `b/d.txt`. -/
def sampleTree2 : FSNode := .dir [("a.txt", .file), ("b", .dir [("d.txt", .file)])]

/-- A tree whose subdirectory `x` cannot be listed (spec scenario 5). -/
def sampleBadTree : FSNode := .dir [("a.txt", .file), ("x", .unreadableDir)]

/-! Order and sorting infrastructure. -/

theorem charListLe_iff : ∀ (as bs : List Char), charListLe as bs = true ↔ ¬ List.lt bs as
  | [], [] => by
    simp only [charListLe, true_iff]
    exact nofun
  | [], _ :: _ => by
    simp only [charListLe, true_iff]
    exact nofun
  | a :: as, [] => by
    simp only [charListLe, Bool.false_eq_true, false_iff, not_not]
    exact .nil a as
  | a :: as, b :: bs => by
    simp only [charListLe]
    by_cases hab : a < b
    · rw [if_pos hab]
      simp only [true_iff]
      intro hlt
      cases hlt with
      | head _ _ hba => exact lt_asymm hba hab
      | tail hba hab' _ => exact hab' hab
    · rw [if_neg hab]
      by_cases hba : b < a
      · rw [if_pos hba]
        simp only [Bool.false_eq_true, false_iff, not_not]
        exact .head bs as hba
      · rw [if_neg hba]
        rw [charListLe_iff as bs]
        constructor
        · intro h hlt
          cases hlt with
          | head _ _ hba' => exact hba hba'
          | tail _ _ htl => exact h htl
        · intro h hlt
          exact h (.tail hba hab hlt)

theorem strLe_iff (a b : String) : strLe a b = true ↔ a ≤ b := by
  rw [strLe, charListLe_iff a.data b.data]
  have h1 : (b < a) ↔ List.lt b.data a.data := by
    rw [String.lt_iff_toList_lt]
    exact (List.lt_iff_lex_lt _ _).symm
  rw [← h1]
  exact not_lt

theorem strLe_of_not_strLe {a b : String} (h : ¬ strLe a b = true) : strLe b a = true :=
  (strLe_iff b a).mpr ((le_total a b).resolve_left (fun hle => h ((strLe_iff a b).mpr hle)))

theorem orderedInsertStr_perm (x : String) :
    ∀ l, List.Perm (orderedInsertStr x l) (x :: l)
  | [] => .refl _
  | y :: ys => by
    simp only [orderedInsertStr]
    by_cases h : strLe x y = true
    · rw [if_pos h]
    · rw [if_neg h]
      exact ((orderedInsertStr_perm x ys).cons y).trans (.swap x y ys)

theorem stringSort_perm : ∀ l, List.Perm (stringSort l) l
  | [] => .refl _
  | x :: xs => (orderedInsertStr_perm x (stringSort xs)).trans ((stringSort_perm xs).cons x)

theorem mem_orderedInsertStr {y x : String} {l : List String} :
    y ∈ orderedInsertStr x l ↔ y = x ∨ y ∈ l := by
  rw [(orderedInsertStr_perm x l).mem_iff, List.mem_cons]

theorem sorted_orderedInsertStr (x : String) :
    ∀ l : List String, l.Sorted (· ≤ ·) → (orderedInsertStr x l).Sorted (· ≤ ·)
  | [], _ => by simp [orderedInsertStr]
  | y :: ys, h => by
    simp only [orderedInsertStr]
    by_cases hxy : strLe x y = true
    · rw [if_pos hxy]
      refine List.Pairwise.cons (fun b hb => ?_) h
      rcases List.mem_cons.mp hb with rfl | hb'
      · exact (strLe_iff x b).mp hxy
      · exact le_trans ((strLe_iff x y).mp hxy) (List.rel_of_sorted_cons h b hb')
    · rw [if_neg hxy]
      refine List.Pairwise.cons (fun b hb => ?_) (sorted_orderedInsertStr x ys h.of_cons)
      rcases mem_orderedInsertStr.mp hb with rfl | hb'
      · exact (strLe_iff _ _).mp (strLe_of_not_strLe hxy)
      · exact List.rel_of_sorted_cons h b hb'

theorem stringSort_sorted : ∀ l, (stringSort l).Sorted (· ≤ ·)
  | [] => by simp [stringSort]
  | x :: xs => sorted_orderedInsertStr x (stringSort xs) (stringSort_sorted xs)

theorem mem_stringSort {x : String} {l : List String} : x ∈ stringSort l ↔ x ∈ l :=
  (stringSort_perm l).mem_iff

theorem contains_iff_mem {α : Type} [BEq α] [LawfulBEq α] {l : List α} {x : α} :
    l.contains x = true ↔ x ∈ l := by
  simp [List.contains_iff_exists_mem_beq]

theorem contains_eq_false_iff {α : Type} [BEq α] [LawfulBEq α] {l : List α} {x : α} :
    l.contains x = false ↔ x ∉ l := by
  cases h : l.contains x
  · simp only [true_iff]
    intro hm
    rw [contains_iff_mem.mpr hm] at h
    cases h
  · simp only [Bool.true_eq_false, false_iff, not_not]
    exact contains_iff_mem.mp h

/-- Reduction of `compareDirectories` on a successful run. -/
theorem compareDirectories_ok {E : RegexEngine} {t1 t2 : FSNode} {d1 d2 : String}
    {ps : List Pattern} {ms : List Matcher} {l1 l2 : List String}
    (hc : compilePatterns E ps = .ok ms) (h1 : collectPaths t1 ms = .ok l1)
    (h2 : collectPaths t2 ms = .ok l2) :
    compareDirectories E t1 t2 d1 d2 ps = .ok
      { onlyInFirst := (onlyInFirstRel (stringSort l1) (stringSort l2)).map (pathJoin d1),
        onlyInSecond := (onlyInSecondRel (stringSort l1) (stringSort l2)).map (pathJoin d2),
        inBoth := (inBothRel (stringSort l1) (stringSort l2)).map (pathJoin d1) } := by
  simp [compareDirectories, hc, h1, h2]

/-! Claim C1: set semantics of the partition. -/

/-- C1: for every pair of roots and ignore list, on a successful run
`compareDirectories` returns exactly the three mapped partitions of the two
sorted snapshots, and on root-relative strings `inBothRel` is the
intersection of the two snapshots, `onlyInFirstRel` is snapshot1 minus
snapshot2, `onlyInSecondRel` is snapshot2 minus snapshot1, and the unions
`onlyInFirstRel ∪ inBothRel` and `onlyInSecondRel ∪ inBothRel` are exactly
the relative paths collected from the first and second root. -/
theorem c1_partition_set_semantics (E : RegexEngine) (t1 t2 : FSNode) (d1 d2 : String)
    (ps : List Pattern) (ms : List Matcher) (l1 l2 : List String)
    (hc : compilePatterns E ps = .ok ms) (h1 : collectPaths t1 ms = .ok l1)
    (h2 : collectPaths t2 ms = .ok l2) :
    compareDirectories E t1 t2 d1 d2 ps = .ok
      { onlyInFirst := (onlyInFirstRel (stringSort l1) (stringSort l2)).map (pathJoin d1),
        onlyInSecond := (onlyInSecondRel (stringSort l1) (stringSort l2)).map (pathJoin d2),
        inBoth := (inBothRel (stringSort l1) (stringSort l2)).map (pathJoin d1) } ∧
    ∀ x : String,
      (x ∈ inBothRel (stringSort l1) (stringSort l2) ↔
        x ∈ stringSort l1 ∧ x ∈ stringSort l2) ∧
      (x ∈ onlyInFirstRel (stringSort l1) (stringSort l2) ↔
        x ∈ stringSort l1 ∧ x ∉ stringSort l2) ∧
      (x ∈ onlyInSecondRel (stringSort l1) (stringSort l2) ↔
        x ∈ stringSort l2 ∧ x ∉ stringSort l1) ∧
      ((x ∈ onlyInFirstRel (stringSort l1) (stringSort l2) ∨
        x ∈ inBothRel (stringSort l1) (stringSort l2)) ↔ x ∈ l1) ∧
      ((x ∈ onlyInSecondRel (stringSort l1) (stringSort l2) ∨
        x ∈ inBothRel (stringSort l1) (stringSort l2)) ↔ x ∈ l2) := by
  refine ⟨compareDirectories_ok hc h1 h2, fun x => ?_⟩
  have hib : x ∈ inBothRel (stringSort l1) (stringSort l2) ↔
      x ∈ stringSort l1 ∧ x ∈ stringSort l2 := by
    simp [inBothRel, List.mem_filter, contains_iff_mem]
  have hof : x ∈ onlyInFirstRel (stringSort l1) (stringSort l2) ↔
      x ∈ stringSort l1 ∧ x ∉ stringSort l2 := by
    simp [onlyInFirstRel, List.mem_filter, contains_iff_mem]
  have hos : x ∈ onlyInSecondRel (stringSort l1) (stringSort l2) ↔
      x ∈ stringSort l2 ∧ x ∉ stringSort l1 := by
    simp [onlyInSecondRel, List.mem_filter, contains_iff_mem]
  refine ⟨hib, hof, hos, ?_, ?_⟩
  · rw [hof, hib, ← mem_stringSort (l := l1)]
    by_cases h2x : x ∈ stringSort l2
    · simp [h2x]
    · simp [h2x]
  · rw [hos, hib, ← mem_stringSort (l := l2)]
    by_cases h1x : x ∈ stringSort l1
    · simp [h1x, mem_stringSort (l := l2)]
    · simp [h1x, mem_stringSort (l := l2)]

/-- Witness for C1 at spec scenario 1. -/
theorem c1_witness :
    collectPaths sampleTree1 [] = .ok ["a.txt", "b/c.txt"] ∧
    collectPaths sampleTree2 [] = .ok ["a.txt", "b/d.txt"] ∧
    compareDirectories sampleEngine sampleTree1 sampleTree2 "dir1" "dir2" [] = .ok
      { onlyInFirst := ["dir1/b/c.txt"], onlyInSecond := ["dir2/b/d.txt"],
        inBoth := ["dir1/a.txt"] } ∧
    ("b/c.txt" ∈ onlyInFirstRel (stringSort ["a.txt", "b/c.txt"])
        (stringSort ["a.txt", "b/d.txt"]) ↔
      "b/c.txt" ∈ stringSort ["a.txt", "b/c.txt"] ∧
      "b/c.txt" ∉ stringSort ["a.txt", "b/d.txt"]) := by
  have e1 : collectPaths sampleTree1 [] = .ok ["a.txt", "b/c.txt"] := by
    simp [collectPaths, collectEntries, matchesAny, pathJoin, sampleTree1]
  have e2 : collectPaths sampleTree2 [] = .ok ["a.txt", "b/d.txt"] := by
    simp [collectPaths, collectEntries, matchesAny, pathJoin, sampleTree2]
  have h := c1_partition_set_semantics sampleEngine sampleTree1 sampleTree2
    "dir1" "dir2" [] [] _ _ rfl e1 e2
  refine ⟨e1, e2, ?_, (h.2 "b/c.txt").2.1⟩
  rw [h.1]
  rfl

/-! Claim C3: ordering of the result buckets. -/

/-- C3: on a successful run each of the three buckets is an
order-preserving filter of a sorted snapshot, hence sorted in ascending
lexicographic order of the root-relative path form. -/
theorem c3_result_buckets_sorted (E : RegexEngine) (t1 t2 : FSNode) (d1 d2 : String)
    (ps : List Pattern) (ms : List Matcher) (l1 l2 : List String)
    (hc : compilePatterns E ps = .ok ms) (h1 : collectPaths t1 ms = .ok l1)
    (h2 : collectPaths t2 ms = .ok l2) :
    compareDirectories E t1 t2 d1 d2 ps = .ok
      { onlyInFirst := (onlyInFirstRel (stringSort l1) (stringSort l2)).map (pathJoin d1),
        onlyInSecond := (onlyInSecondRel (stringSort l1) (stringSort l2)).map (pathJoin d2),
        inBoth := (inBothRel (stringSort l1) (stringSort l2)).map (pathJoin d1) } ∧
    (onlyInFirstRel (stringSort l1) (stringSort l2)).Sorted (· ≤ ·) ∧
    (onlyInSecondRel (stringSort l1) (stringSort l2)).Sorted (· ≤ ·) ∧
    (inBothRel (stringSort l1) (stringSort l2)).Sorted (· ≤ ·) := by
  refine ⟨compareDirectories_ok hc h1 h2, ?_, ?_, ?_⟩
  · exact List.Pairwise.filter _ (stringSort_sorted l1)
  · exact List.Pairwise.filter _ (stringSort_sorted l2)
  · exact List.Pairwise.filter _ (stringSort_sorted l1)

/-- Witness for C3 at spec scenario 1. -/
theorem c3_witness :
    collectPaths sampleTree1 [] = .ok ["a.txt", "b/c.txt"] ∧
    collectPaths sampleTree2 [] = .ok ["a.txt", "b/d.txt"] ∧
    (onlyInFirstRel (stringSort ["a.txt", "b/c.txt"])
      (stringSort ["a.txt", "b/d.txt"])).Sorted (· ≤ ·) := by
  have e1 : collectPaths sampleTree1 [] = .ok ["a.txt", "b/c.txt"] := by
    simp [collectPaths, collectEntries, matchesAny, pathJoin, sampleTree1]
  have e2 : collectPaths sampleTree2 [] = .ok ["a.txt", "b/d.txt"] := by
    simp [collectPaths, collectEntries, matchesAny, pathJoin, sampleTree2]
  exact ⟨e1, e2, (c3_result_buckets_sorted sampleEngine sampleTree1 sampleTree2
    "dir1" "dir2" [] [] _ _ rfl e1 e2).2.1⟩

/-! Claim C4: idempotence. -/

/-- C4: comparing a directory to itself yields empty `onlyInFirst` and
`onlyInSecond`, and `inBoth` is the whole sorted snapshot of non-ignored
files under that root (a permutation of the collected paths). -/
theorem c4_idempotence (E : RegexEngine) (t : FSNode) (d : String)
    (ps : List Pattern) (ms : List Matcher) (l : List String)
    (hc : compilePatterns E ps = .ok ms) (h : collectPaths t ms = .ok l) :
    compareDirectories E t t d d ps = .ok
      { onlyInFirst := [], onlyInSecond := [],
        inBoth := (stringSort l).map (pathJoin d) } ∧
    List.Perm (stringSort l) l := by
  refine ⟨?_, stringSort_perm l⟩
  rw [compareDirectories_ok hc h h]
  have hof : onlyInFirstRel (stringSort l) (stringSort l) = [] := by
    simp only [onlyInFirstRel, List.filter_eq_nil_iff]
    intro a ha
    rw [contains_iff_mem.mpr ha]
    simp
  have hib : inBothRel (stringSort l) (stringSort l) = stringSort l := by
    rw [inBothRel, List.filter_eq_self]
    intro a ha
    exact contains_iff_mem.mpr ha
  rw [hof]
  rw [show onlyInSecondRel (stringSort l) (stringSort l) =
    onlyInFirstRel (stringSort l) (stringSort l) from rfl, hof, hib]
  rfl

/-- Witness for C4: comparing scenario 1's first tree with itself. -/
theorem c4_witness :
    collectPaths sampleTree1 [] = .ok ["a.txt", "b/c.txt"] ∧
    compareDirectories sampleEngine sampleTree1 sampleTree1 "dir1" "dir1" [] = .ok
      { onlyInFirst := [], onlyInSecond := [],
        inBoth := ["dir1/a.txt", "dir1/b/c.txt"] } := by
  have e1 : collectPaths sampleTree1 [] = .ok ["a.txt", "b/c.txt"] := by
    simp [collectPaths, collectEntries, matchesAny, pathJoin, sampleTree1]
  refine ⟨e1, ?_⟩
  rw [(c4_idempotence sampleEngine sampleTree1 "dir1" [] [] _ rfl e1).1]
  rfl

/-! Claim C5: symmetry. -/

/-- C5: swapping the two roots swaps `onlyInFirst` and `onlyInSecond`
exactly (same joined lists, the rel parts being the same by definition),
and `inBoth` covers the same set of relative paths in both orders. -/
theorem c5_symmetry (E : RegexEngine) (t1 t2 : FSNode) (d1 d2 : String)
    (ps : List Pattern) (ms : List Matcher) (l1 l2 : List String)
    (hc : compilePatterns E ps = .ok ms) (h1 : collectPaths t1 ms = .ok l1)
    (h2 : collectPaths t2 ms = .ok l2) :
    ∀ r12 r21 : DiffResult,
      compareDirectories E t1 t2 d1 d2 ps = .ok r12 →
      compareDirectories E t2 t1 d2 d1 ps = .ok r21 →
      r12.onlyInFirst = r21.onlyInSecond ∧
      r12.onlyInSecond = r21.onlyInFirst ∧
      (∀ x : String, x ∈ inBothRel (stringSort l1) (stringSort l2) ↔
        x ∈ inBothRel (stringSort l2) (stringSort l1)) ∧
      r12.inBoth = (inBothRel (stringSort l1) (stringSort l2)).map (pathJoin d1) ∧
      r21.inBoth = (inBothRel (stringSort l2) (stringSort l1)).map (pathJoin d2) := by
  intro r12 r21 hr12 hr21
  rw [compareDirectories_ok hc h1 h2] at hr12
  rw [compareDirectories_ok hc h2 h1] at hr21
  have e12 := (Except.ok.inj hr12).symm
  have e21 := (Except.ok.inj hr21).symm
  subst e12
  subst e21
  refine ⟨rfl, rfl, fun x => ?_, rfl, rfl⟩
  simp only [inBothRel, List.mem_filter]
  constructor
  · rintro ⟨ha, hb⟩
    exact ⟨contains_iff_mem.mp hb, contains_iff_mem.mpr ha⟩
  · rintro ⟨ha, hb⟩
    exact ⟨contains_iff_mem.mp hb, contains_iff_mem.mpr ha⟩

/-- Witness for C5 at spec scenario 1, both argument orders. -/
theorem c5_witness :
    collectPaths sampleTree1 [] = .ok ["a.txt", "b/c.txt"] ∧
    collectPaths sampleTree2 [] = .ok ["a.txt", "b/d.txt"] ∧
    compareDirectories sampleEngine sampleTree1 sampleTree2 "dir1" "dir2" [] = .ok
      { onlyInFirst := ["dir1/b/c.txt"], onlyInSecond := ["dir2/b/d.txt"],
        inBoth := ["dir1/a.txt"] } ∧
    compareDirectories sampleEngine sampleTree2 sampleTree1 "dir2" "dir1" [] = .ok
      { onlyInFirst := ["dir2/b/d.txt"], onlyInSecond := ["dir1/b/c.txt"],
        inBoth := ["dir2/a.txt"] } ∧
    (["dir1/b/c.txt"] : List String) = ["dir1/b/c.txt"] ∧
    (∀ x : String, x ∈ inBothRel (stringSort ["a.txt", "b/c.txt"])
        (stringSort ["a.txt", "b/d.txt"]) ↔
      x ∈ inBothRel (stringSort ["a.txt", "b/d.txt"])
        (stringSort ["a.txt", "b/c.txt"])) := by
  have e1 : collectPaths sampleTree1 [] = .ok ["a.txt", "b/c.txt"] := by
    simp [collectPaths, collectEntries, matchesAny, pathJoin, sampleTree1]
  have e2 : collectPaths sampleTree2 [] = .ok ["a.txt", "b/d.txt"] := by
    simp [collectPaths, collectEntries, matchesAny, pathJoin, sampleTree2]
  have hr12 : compareDirectories sampleEngine sampleTree1 sampleTree2
      "dir1" "dir2" [] = .ok
      { onlyInFirst := ["dir1/b/c.txt"], onlyInSecond := ["dir2/b/d.txt"],
        inBoth := ["dir1/a.txt"] } := by
    rw [@compareDirectories_ok sampleEngine sampleTree1 sampleTree2 "dir1" "dir2"
      [] [] ["a.txt", "b/c.txt"] ["a.txt", "b/d.txt"] rfl e1 e2]
    rfl
  have hr21 : compareDirectories sampleEngine sampleTree2 sampleTree1
      "dir2" "dir1" [] = .ok
      { onlyInFirst := ["dir2/b/d.txt"], onlyInSecond := ["dir1/b/c.txt"],
        inBoth := ["dir2/a.txt"] } := by
    rw [@compareDirectories_ok sampleEngine sampleTree2 sampleTree1 "dir2" "dir1"
      [] [] ["a.txt", "b/d.txt"] ["a.txt", "b/c.txt"] rfl e2 e1]
    rfl
  have h := c5_symmetry sampleEngine sampleTree1 sampleTree2 "dir1" "dir2"
    [] [] _ _ rfl e1 e2 _ _ hr12 hr21
  exact ⟨e1, e2, hr12, hr21, h.1, h.2.2.1⟩

/-! Claim C10: multiplicity-preserving partition. -/

/-- C10: `onlyInFirstRel` and `inBothRel` are complementary order-preserving
filters (sublists) of the sorted first snapshot, their lengths adding up to
the first snapshot's length with duplicates counted; `onlyInSecondRel` is an
order-preserving filter of the sorted second snapshot; and per-element counts
are preserved, never deduplicated. -/
theorem c10_multiplicity (E : RegexEngine) (t1 t2 : FSNode) (d1 d2 : String)
    (ps : List Pattern) (ms : List Matcher) (l1 l2 : List String)
    (hc : compilePatterns E ps = .ok ms) (h1 : collectPaths t1 ms = .ok l1)
    (h2 : collectPaths t2 ms = .ok l2) :
    compareDirectories E t1 t2 d1 d2 ps = .ok
      { onlyInFirst := (onlyInFirstRel (stringSort l1) (stringSort l2)).map (pathJoin d1),
        onlyInSecond := (onlyInSecondRel (stringSort l1) (stringSort l2)).map (pathJoin d2),
        inBoth := (inBothRel (stringSort l1) (stringSort l2)).map (pathJoin d1) } ∧
    (onlyInFirstRel (stringSort l1) (stringSort l2)).length +
      (inBothRel (stringSort l1) (stringSort l2)).length = l1.length ∧
    List.Sublist (onlyInFirstRel (stringSort l1) (stringSort l2)) (stringSort l1) ∧
    List.Sublist (inBothRel (stringSort l1) (stringSort l2)) (stringSort l1) ∧
    List.Sublist (onlyInSecondRel (stringSort l1) (stringSort l2)) (stringSort l2) ∧
    ∀ x : String,
      (x ∈ l2 → (inBothRel (stringSort l1) (stringSort l2)).count x = l1.count x ∧
        (onlyInFirstRel (stringSort l1) (stringSort l2)).count x = 0) ∧
      (x ∉ l2 → (onlyInFirstRel (stringSort l1) (stringSort l2)).count x = l1.count x ∧
        (inBothRel (stringSort l1) (stringSort l2)).count x = 0) := by
  refine ⟨compareDirectories_ok hc h1 h2, ?_, ?_, ?_, ?_, fun x => ⟨?_, ?_⟩⟩
  · have hsplit := List.length_eq_length_filter_add
      (l := stringSort l1) (fun p => (stringSort l2).contains p)
    have hlen := (stringSort_perm l1).length_eq
    simp only [onlyInFirstRel, inBothRel]
    omega
  · exact List.filter_sublist _
  · exact List.filter_sublist _
  · exact List.filter_sublist _
  · intro hx2
    have hcx : (stringSort l2).contains x = true :=
      contains_iff_mem.mpr (mem_stringSort.mpr hx2)
    constructor
    · rw [inBothRel, List.count_filter hcx]
      exact (stringSort_perm l1).count_eq x
    · rw [List.count_eq_zero]
      intro hmem
      have := (List.mem_filter.mp hmem).2
      rw [hcx] at this
      cases this
  · intro hx2
    have hcx : (stringSort l2).contains x = false :=
      contains_eq_false_iff.mpr (fun hm => hx2 (mem_stringSort.mp hm))
    constructor
    · rw [onlyInFirstRel, List.count_filter (by rw [hcx]; rfl)]
      exact (stringSort_perm l1).count_eq x
    · rw [List.count_eq_zero]
      intro hmem
      have := (List.mem_filter.mp hmem).2
      rw [hcx] at this
      cases this

/-- Witness for C10 on trees with a duplicate-free overlap. -/
theorem c10_witness :
    collectPaths sampleTree1 [] = .ok ["a.txt", "b/c.txt"] ∧
    collectPaths sampleTree2 [] = .ok ["a.txt", "b/d.txt"] ∧
    (onlyInFirstRel (stringSort ["a.txt", "b/c.txt"]) (stringSort ["a.txt", "b/d.txt"])).length +
      (inBothRel (stringSort ["a.txt", "b/c.txt"]) (stringSort ["a.txt", "b/d.txt"])).length =
      (["a.txt", "b/c.txt"] : List String).length := by
  have e1 : collectPaths sampleTree1 [] = .ok ["a.txt", "b/c.txt"] := by
    simp [collectPaths, collectEntries, matchesAny, pathJoin, sampleTree1]
  have e2 : collectPaths sampleTree2 [] = .ok ["a.txt", "b/d.txt"] := by
    simp [collectPaths, collectEntries, matchesAny, pathJoin, sampleTree2]
  exact ⟨e1, e2, (c10_multiplicity sampleEngine sampleTree1 sampleTree2
    "dir1" "dir2" [] [] _ _ rfl e1 e2).2.1⟩

/-! Claim C6: invalid ignore patterns abort before traversal. -/

/-- An invalid pattern string anywhere in the list makes pattern compilation
fail with `invalidPattern`. -/
theorem compilePatterns_invalid {E : RegexEngine} :
    ∀ {ps : List Pattern} {s : String}, Pattern.str s ∈ ps → E.compile s = none →
    ∃ s', compilePatterns E ps = .error (.invalidPattern s') := by
  intro ps
  induction ps with
  | nil => intro s hmem; cases hmem
  | cons p rest ih =>
    intro s hmem hinv
    rcases List.mem_cons.mp hmem with heq | hrest
    · subst heq
      rw [compilePatterns, hinv]
      exact ⟨s, rfl⟩
    · cases p with
      | regex m =>
        obtain ⟨s', hs'⟩ := ih hrest hinv
        rw [compilePatterns, hs']
        exact ⟨s', rfl⟩
      | str s0 =>
        cases h0 : E.compile s0 with
        | none =>
          rw [compilePatterns, h0]
          exact ⟨s0, rfl⟩
        | some m =>
          obtain ⟨s', hs'⟩ := ih hrest hinv
          rw [compilePatterns, h0, hs']
          exact ⟨s', rfl⟩

/-- C6: if any pattern string in the list is not a valid regular expression,
`compareDirectories` returns `invalidPattern` — for every pair of trees,
including trees whose traversal would itself fail, so the abort happens
before and independently of any filesystem traversal, and no `DiffResult`
is produced. -/
theorem c6_invalid_pattern_aborts (E : RegexEngine) (t1 t2 : FSNode) (d1 d2 : String)
    (ps : List Pattern) (s : String)
    (hmem : Pattern.str s ∈ ps) (hinv : E.compile s = none) :
    (∃ s', compareDirectories E t1 t2 d1 d2 ps = .error (.invalidPattern s')) ∧
    ∀ d : DiffResult, compareDirectories E t1 t2 d1 d2 ps ≠ .ok d := by
  obtain ⟨s', hs'⟩ := compilePatterns_invalid hmem hinv
  refine ⟨⟨s', by simp [compareDirectories, hs']⟩, fun d hok => ?_⟩
  rw [show compareDirectories E t1 t2 d1 d2 ps = .error (.invalidPattern s') from
    by simp [compareDirectories, hs']] at hok
  cases hok

/-- Witness for C6 at spec scenario 4: the pattern string `"("`, paired with
a first tree whose traversal would fail if it were attempted. -/
theorem c6_witness :
    Pattern.str "(" ∈ [Pattern.str "("] ∧ sampleEngine.compile "(" = none ∧
    ((∃ s', compareDirectories sampleEngine sampleBadTree sampleTree2 "d1" "d2"
        [Pattern.str "("] = .error (.invalidPattern s')) ∧
      ∀ d : DiffResult, compareDirectories sampleEngine sampleBadTree sampleTree2
        "d1" "d2" [Pattern.str "("] ≠ .ok d) :=
  ⟨List.Mem.head _, rfl,
    c6_invalid_pattern_aborts sampleEngine sampleBadTree sampleTree2 "d1" "d2"
      [Pattern.str "("] "(" (List.Mem.head _) rfl⟩

/-! Claim C7: filesystem errors abort the whole comparison. -/

/-- If a non-ignored entry of the list fails, collecting the list never
succeeds. -/
theorem collectEntries_fails_of_mem {ms : List Matcher} {name : String} {child : FSNode} :
    ∀ (entries : List (String × FSNode)) (cur : String),
      (name, child) ∈ entries → matchesAny ms (pathJoin cur name) = false →
      childFails ms (pathJoin cur name) child →
      ∀ l, collectEntries entries cur ms ≠ .ok l := by
  intro entries
  induction entries with
  | nil =>
    intro cur hm
    cases hm
  | cons e rest ih =>
    intro cur hm hunm hcf l hok
    obtain ⟨ename, echild⟩ := e
    rcases List.mem_cons.mp hm with heq | hmrest
    · have hn : name = ename := congrArg Prod.fst heq
      have hchild : child = echild := congrArg Prod.snd heq
      subst hn
      subst hchild
      rw [collectEntries.eq_def] at hok
      simp only [] at hok
      rw [hunm, if_neg Bool.false_ne_true] at hok
      cases child with
      | statFail => cases hok
      | unreadableDir => cases hok
      | file => exact hcf
      | dir es =>
        simp only [] at hok
        cases hsub : collectEntries es (pathJoin cur name) ms with
        | error e =>
          rw [hsub] at hok
          cases hok
        | ok sub => exact hcf sub hsub
    · rw [collectEntries.eq_def] at hok
      simp only [] at hok
      by_cases hm0 : matchesAny ms (pathJoin cur ename) = true
      · rw [hm0, if_pos rfl] at hok
        exact ih cur hmrest hunm hcf l hok
      · rw [Bool.not_eq_true] at hm0
        rw [hm0, if_neg Bool.false_ne_true] at hok
        cases echild with
        | statFail => cases hok
        | unreadableDir => cases hok
        | file =>
          simp only [] at hok
          cases hrest : collectEntries rest cur ms with
          | error e =>
            rw [hrest] at hok
            cases hok
          | ok tail => exact ih cur hmrest hunm hcf tail hrest
        | dir es =>
          simp only [] at hok
          cases hes : collectEntries es (pathJoin cur ename) ms with
          | error e =>
            rw [hes] at hok
            cases hok
          | ok sub =>
            cases hrest : collectEntries rest cur ms with
            | error e =>
              rw [hes, hrest] at hok
              cases hok
            | ok tail => exact ih cur hmrest hunm hcf tail hrest

/-- A reachable non-ignored failing entry makes the collection of the
surrounding directory fail. -/
theorem collectEntries_fails_of_failReach {ms : List Matcher} {t : FSNode} {cur : String}
    (h : FailReach ms t cur) :
    ∀ {entries : List (String × FSNode)}, t = .dir entries →
      ∀ l, collectEntries entries cur ms ≠ .ok l := by
  induction h with
  | stat hm hunm =>
    intro entries ht l hok
    injection ht with ht
    subst ht
    exact collectEntries_fails_of_mem _ _ hm hunm trivial l hok
  | unreadable hm hunm =>
    intro entries ht l hok
    injection ht with ht
    subst ht
    exact collectEntries_fails_of_mem _ _ hm hunm trivial l hok
  | deeper hm hunm hsub ih =>
    intro entries ht l hok
    injection ht with ht
    subst ht
    cases hsub with
    | stat hm' hunm' =>
      exact collectEntries_fails_of_mem _ _ hm hunm (fun l' => ih rfl l') l hok
    | unreadable hm' hunm' =>
      exact collectEntries_fails_of_mem _ _ hm hunm (fun l' => ih rfl l') l hok
    | deeper hm' hunm' hsub' =>
      exact collectEntries_fails_of_mem _ _ hm hunm (fun l' => ih rfl l') l hok

/-- C7: when a non-ignored entry reachable through non-ignored directories
fails during traversal of either root (with the patterns compiled), the
error propagates: the collection returns an error, and `compareDirectories`
returns a propagated `fsError` instead of any `DiffResult`. -/
theorem c7_fs_error_aborts (E : RegexEngine) (t1 t2 : FSNode) (d1 d2 : String)
    (ps : List Pattern) (ms : List Matcher)
    (hc : compilePatterns E ps = .ok ms) :
    (FailReach ms t1 "" →
      (∃ e, collectPaths t1 ms = .error e) ∧
      ∃ e, compareDirectories E t1 t2 d1 d2 ps = .error (.fsError e)) ∧
    (∀ l1, collectPaths t1 ms = .ok l1 → FailReach ms t2 "" →
      (∃ e, collectPaths t2 ms = .error e) ∧
      ∃ e, compareDirectories E t1 t2 d1 d2 ps = .error (.fsError e)) := by
  constructor
  · intro hfr
    have hfail : ∀ l, collectPaths t1 ms ≠ .ok l := by
      intro l hok
      cases hfr with
      | stat hm hunm =>
        exact collectEntries_fails_of_failReach (.stat hm hunm) rfl l hok
      | unreadable hm hunm =>
        exact collectEntries_fails_of_failReach (.unreadable hm hunm) rfl l hok
      | deeper hm hunm hsub =>
        exact collectEntries_fails_of_failReach (.deeper hm hunm hsub) rfl l hok
    obtain ⟨e, he⟩ : ∃ e, collectPaths t1 ms = .error e := by
      cases hr : collectPaths t1 ms with
      | error e => exact ⟨e, rfl⟩
      | ok l => exact absurd hr (hfail l)
    exact ⟨⟨e, he⟩, ⟨e, by simp [compareDirectories, hc, he]⟩⟩
  · intro l1 h1 hfr
    have hfail : ∀ l, collectPaths t2 ms ≠ .ok l := by
      intro l hok
      cases hfr with
      | stat hm hunm =>
        exact collectEntries_fails_of_failReach (.stat hm hunm) rfl l hok
      | unreadable hm hunm =>
        exact collectEntries_fails_of_failReach (.unreadable hm hunm) rfl l hok
      | deeper hm hunm hsub =>
        exact collectEntries_fails_of_failReach (.deeper hm hunm hsub) rfl l hok
    obtain ⟨e, he⟩ : ∃ e, collectPaths t2 ms = .error e := by
      cases hr : collectPaths t2 ms with
      | error e => exact ⟨e, rfl⟩
      | ok l => exact absurd hr (hfail l)
    exact ⟨⟨e, he⟩, ⟨e, by simp [compareDirectories, hc, h1, he]⟩⟩

/-- Witness for C7 at spec scenario 5: a root with an unreadable
subdirectory. -/
theorem c7_witness :
    compilePatterns sampleEngine [] = .ok [] ∧
    FailReach [] sampleBadTree "" ∧
    ((∃ e, collectPaths sampleBadTree [] = .error e) ∧
      ∃ e, compareDirectories sampleEngine sampleBadTree sampleTree2 "d1" "d2" [] =
        .error (.fsError e)) := by
  have hfr : FailReach [] sampleBadTree "" :=
    FailReach.unreadable (List.Mem.tail _ (List.Mem.head _)) rfl
  exact ⟨rfl, hfr,
    (c7_fs_error_aborts sampleEngine sampleBadTree sampleTree2 "d1" "d2" [] []
      rfl).1 hfr⟩

/-! Claim C8: the count line of the difference report. -/

/-- C8 counterexample: when both only-lists are empty the report takes the
early `return` after the identical message, so it does not end with the
count line `Found 0 identical paths, 0 differences` that the claim predicts
for this `DiffResult`. -/
theorem c8_counterexample :
    (printDifferences "d1" "d2"
        { onlyInFirst := [], onlyInSecond := [], inBoth := [] }).getLast? ≠
      some "Found 0 identical paths, 0 differences" := by
  decide

/-- C8 (amended): the difference report ends with the count line
`Found <N> identical paths, <M> differences` (N = `inBoth.length`,
M = `onlyInFirst.length + onlyInSecond.length`) whenever at least one of
`onlyInFirst`/`onlyInSecond` is non-empty; when both are empty the report
ends with the identical message instead and no count line is printed. -/
theorem c8_count_line (d1 d2 : String) (d : DiffResult) :
    (d.onlyInFirst ≠ [] ∨ d.onlyInSecond ≠ [] →
      (printDifferences d1 d2 d).getLast? =
        some ("Found " ++ toString d.inBoth.length ++ " identical paths, "
          ++ toString (d.onlyInFirst.length + d.onlyInSecond.length) ++ " differences")) ∧
    (d.onlyInFirst = [] → d.onlyInSecond = [] →
      printDifferences d1 d2 d =
        ["Directory Structure Comparison:", "===============================",
         "✅ Directories are identical"]) := by
  constructor
  · intro hne
    have hcond : ¬((decide (d.onlyInFirst.length = 0) &&
        decide (d.onlyInSecond.length = 0)) = true) := by
      rcases hne with h | h
      · simp [List.length_eq_zero, h]
      · simp [List.length_eq_zero, h]
    simp only [printDifferences]
    rw [if_neg hcond, List.getLast?_concat]
  · intro h1 h2
    simp [printDifferences, h1, h2]

/-- Witness for C8 (amended) on a one-difference result. -/
theorem c8_witness :
    ((["d1/x"] : List String) ≠ [] ∨ ([] : List String) ≠ []) ∧
    (printDifferences "d1" "d2"
        { onlyInFirst := ["d1/x"], onlyInSecond := [], inBoth := ["d1/a"] }).getLast? =
      some "Found 1 identical paths, 1 differences" := by
  have h := (c8_count_line "d1" "d2"
    { onlyInFirst := ["d1/x"], onlyInSecond := [], inBoth := ["d1/a"] }).1
    (Or.inl (by simp))
  refine ⟨Or.inl (by simp), ?_⟩
  rw [h]
  rfl

/-! Claim C9: config loading is total with empty fallback. -/

/-- C9: `loadConfig` is total (it returns a `BdgConfig`, never an error) and
for every state of the configuration file it either falls back to the empty
ignore list (absent file, read error, malformed JSON, non-array
`ignorePaths`) or, exactly when the file parses with a valid `ignorePaths`
array, returns that array unchanged. -/
theorem c9_config_fallback :
    (∀ f : ConfigFile, loadConfig f = { ignorePaths := [] } ∨
      ∃ l, f = ConfigFile.parsedArray l ∧ loadConfig f = { ignorePaths := l }) ∧
    ∀ l, loadConfig (ConfigFile.parsedArray l) = { ignorePaths := l } := by
  constructor
  · intro f
    cases f with
    | absent => exact Or.inl rfl
    | readError => exact Or.inl rfl
    | malformed => exact Or.inl rfl
    | parsedNotArray => exact Or.inl rfl
    | parsedArray l => exact Or.inr ⟨l, rfl, rfl⟩
  · intro l
    rfl

/-! Claim C2: ignore pruning.  Chain and path-injectivity lemmas. -/

theorem CleanChain.weaken {ms : List Matcher} {entries entries' : List (String × FSNode)}
    {cur : String} {ns : List String} (h : CleanChain ms (.dir entries) cur ns)
    (hsub : ∀ e ∈ entries, e ∈ entries') : CleanChain ms (.dir entries') cur ns := by
  cases h with
  | file hm hf => exact .file (hsub _ hm) hf
  | dir hm hf hc => exact .dir (hsub _ hm) hf hc

theorem CleanChain.ne_nil {ms : List Matcher} {t : FSNode} {cur : String}
    {ns : List String} (h : CleanChain ms t cur ns) : ns ≠ [] := by
  cases h with
  | file hm hf => exact List.cons_ne_nil _ _
  | dir hm hf hc => exact List.cons_ne_nil _ _

theorem relOfFrom_cons (cur s : String) (rest : List String) :
    relOfFrom cur (s :: rest) = relOfFrom (pathJoin cur s) rest := by
  simp [relOfFrom]

theorem CleanChain.take_unmatched {ms : List Matcher} {t : FSNode} {cur : String}
    {ns : List String} (h : CleanChain ms t cur ns) :
    ∀ k, 0 < k → matchesAny ms (relOfFrom cur (ns.take k)) = false := by
  induction h with
  | file hm hf =>
    intro k hk
    cases k with
    | zero => cases hk
    | succ k => simpa [relOfFrom] using hf
  | dir hm hf hc ih =>
    intro k hk
    cases k with
    | zero => cases hk
    | succ k =>
      cases k with
      | zero => simpa [relOfFrom] using hf
      | succ k2 =>
        have h2 := ih (k2 + 1) (Nat.succ_pos _)
        simpa [relOfFrom_cons] using h2

theorem goodEntries_mem : ∀ {entries : List (String × FSNode)},
    goodEntries entries = true → ∀ {name : String} {child : FSNode},
    (name, child) ∈ entries → goodName name = true ∧ goodTree child = true := by
  intro entries
  induction entries with
  | nil =>
    intro _ name child hm
    cases hm
  | cons e rest ih =>
    intro hg name child hm
    obtain ⟨n0, c0⟩ := e
    rw [goodEntries] at hg
    rw [Bool.and_eq_true, Bool.and_eq_true] at hg
    rcases List.mem_cons.mp hm with heq | hmr
    · have hn1 : name = n0 := congrArg Prod.fst heq
      have hn2 : child = c0 := congrArg Prod.snd heq
      subst hn1
      subst hn2
      exact ⟨hg.1.1, hg.1.2⟩
    · exact ih hg.2 hmr

theorem cleanChain_names_good {ms : List Matcher} :
    ∀ {t : FSNode} {cur : String} {ns : List String}, CleanChain ms t cur ns →
      goodTree t = true → ∀ s ∈ ns, goodName s = true := by
  intro t cur ns h
  induction h with
  | file hm hf =>
    intro hg s hs
    rw [List.mem_singleton] at hs
    subst hs
    rw [goodTree] at hg
    exact (goodEntries_mem hg hm).1
  | dir hm hf hc ih =>
    intro hg s hs
    rw [goodTree] at hg
    rcases List.mem_cons.mp hs with heq | hs'
    · subst heq
      exact (goodEntries_mem hg hm).1
    · exact ih (goodEntries_mem hg hm).2 s hs'

theorem nodeAt_names_good : ∀ {t : FSNode} {ns : List String} {t' : FSNode},
    NodeAt t ns t' → goodTree t = true → ∀ s ∈ ns, goodName s = true := by
  intro t ns t' h
  induction h with
  | nil =>
    intro _ s hs
    cases hs
  | cons hm hsub ih =>
    intro hg s hs
    rw [goodTree] at hg
    rcases List.mem_cons.mp hs with heq | hs'
    · subst heq
      exact (goodEntries_mem hg hm).1
    · exact ih (goodEntries_mem hg hm).2 s hs'

theorem goodName_spec {s : String} (h : goodName s = true) :
    s.data ≠ [] ∧ '/' ∉ s.data := by
  rw [goodName, Bool.and_eq_true] at h
  refine ⟨?_, ?_⟩
  · intro hd
    have h1 := h.1
    rw [hd] at h1
    simp [List.isEmpty] at h1
  · intro hmem
    have h2 := h.2
    rw [contains_iff_mem.mpr hmem] at h2
    simp at h2

theorem data_eq_nil_iff {s : String} : s.data = [] ↔ s = "" :=
  ⟨fun h => String.ext h, fun h => by rw [h]⟩

theorem pathJoin_data {c : String} (s : String) (hc : c ≠ "") :
    (pathJoin c s).data = c.data ++ '/' :: s.data := by
  rw [pathJoin, if_neg hc]
  have hsep : ("/" : String).data = ['/'] := rfl
  simp [String.data_append, hsep, List.append_assoc]

theorem pathJoin_ne_empty {c : String} (s : String) (hc : c ≠ "") :
    pathJoin c s ≠ "" := by
  intro h
  have hd := congrArg String.data h
  rw [pathJoin_data s hc] at hd
  simp at hd

theorem relOfFrom_data : ∀ (ns : List String) (c : String), c ≠ "" →
    (relOfFrom c ns).data = c.data ++ ns.foldr (fun s acc => '/' :: s.data ++ acc) [] := by
  intro ns
  induction ns with
  | nil =>
    intro c hc
    simp [relOfFrom]
  | cons s rest ih =>
    intro c hc
    rw [relOfFrom_cons, ih _ (pathJoin_ne_empty s hc), pathJoin_data s hc]
    simp [List.append_assoc]

theorem relOfFrom_root_data {x : String} (xs : List String) (hx : x ≠ "") :
    (relOfFrom "" (x :: xs)).data =
      x.data ++ xs.foldr (fun s acc => '/' :: s.data ++ acc) [] := by
  rw [relOfFrom_cons]
  have hj : pathJoin "" x = x := by rw [pathJoin, if_pos rfl]
  rw [hj, relOfFrom_data xs x hx]

theorem ne_append_sep {a b y : List Char} (ha : '/' ∉ a) : a ≠ b ++ '/' :: y := by
  intro h
  apply ha
  rw [h]
  exact List.mem_append_right b (List.mem_cons_self _ _)

theorem append_sep_inj : ∀ (a : List Char) {b x y : List Char}, '/' ∉ a → '/' ∉ b →
    a ++ '/' :: x = b ++ '/' :: y → a = b ∧ x = y := by
  intro a
  induction a with
  | nil =>
    intro b x y _ hb heq
    cases b with
    | nil =>
      simp only [List.nil_append] at heq
      injection heq with _ h2
      exact ⟨rfl, h2⟩
    | cons d ds =>
      simp only [List.nil_append, List.cons_append] at heq
      injection heq with h1 _
      subst h1
      exact absurd (List.mem_cons_self _ _) hb
  | cons c cs ih =>
    intro b x y ha hb heq
    cases b with
    | nil =>
      simp only [List.cons_append, List.nil_append] at heq
      injection heq with h1 _
      subst h1
      exact absurd (List.mem_cons_self _ _) ha
    | cons d ds =>
      simp only [List.cons_append] at heq
      injection heq with h1 h2
      subst h1
      have ha' : '/' ∉ cs := fun hm => ha (List.mem_cons_of_mem _ hm)
      have hb' : '/' ∉ ds := fun hm => hb (List.mem_cons_of_mem _ hm)
      obtain ⟨he, hxy⟩ := ih ha' hb' h2
      exact ⟨by rw [he], hxy⟩

theorem chainData_inj :
    ∀ (xs1 : List String) (x1 : String) (xs2 : List String) (x2 : String),
      goodName x1 = true → goodName x2 = true →
      (∀ s ∈ xs1, goodName s = true) → (∀ s ∈ xs2, goodName s = true) →
      x1.data ++ xs1.foldr (fun s acc => '/' :: s.data ++ acc) [] =
        x2.data ++ xs2.foldr (fun s acc => '/' :: s.data ++ acc) [] →
      x1 = x2 ∧ xs1 = xs2 := by
  intro xs1
  induction xs1 with
  | nil =>
    intro x1 xs2 x2 h1 h2 _ hg2 heq
    cases xs2 with
    | nil =>
      simp only [List.foldr_nil, List.append_nil] at heq
      exact ⟨String.ext heq, rfl⟩
    | cons s2 r2 =>
      exfalso
      simp only [List.foldr_nil, List.append_nil, List.foldr_cons] at heq
      exact ne_append_sep (goodName_spec h1).2 heq
  | cons s1 r1 ih =>
    intro x1 xs2 x2 h1 h2 hg1 hg2 heq
    cases xs2 with
    | nil =>
      exfalso
      simp only [List.foldr_cons, List.foldr_nil, List.append_nil] at heq
      exact ne_append_sep (goodName_spec h2).2 heq.symm
    | cons s2 r2 =>
      simp only [List.foldr_cons] at heq
      obtain ⟨hx, hrest⟩ :=
        append_sep_inj x1.data (goodName_spec h1).2 (goodName_spec h2).2 heq
      obtain ⟨hs, hr⟩ := ih s1 r2 s2 (hg1 s1 (List.mem_cons_self _ _))
        (hg2 s2 (List.mem_cons_self _ _))
        (fun s hs => hg1 s (List.mem_cons_of_mem _ hs))
        (fun s hs => hg2 s (List.mem_cons_of_mem _ hs)) hrest
      exact ⟨String.ext hx, by rw [hs, hr]⟩

theorem relOfFrom_root_inj {ns1 ns2 : List String}
    (hg1 : ∀ s ∈ ns1, goodName s = true) (hg2 : ∀ s ∈ ns2, goodName s = true)
    (hne1 : ns1 ≠ []) (hne2 : ns2 ≠ [])
    (heq : relOfFrom "" ns1 = relOfFrom "" ns2) : ns1 = ns2 := by
  cases ns1 with
  | nil => exact absurd rfl hne1
  | cons x1 r1 =>
    cases ns2 with
    | nil => exact absurd rfl hne2
    | cons x2 r2 =>
      have hd := congrArg String.data heq
      have hx1 : x1 ≠ "" := fun h =>
        (goodName_spec (hg1 x1 (List.mem_cons_self _ _))).1 (data_eq_nil_iff.mpr h)
      have hx2 : x2 ≠ "" := fun h =>
        (goodName_spec (hg2 x2 (List.mem_cons_self _ _))).1 (data_eq_nil_iff.mpr h)
      rw [relOfFrom_root_data r1 hx1, relOfFrom_root_data r2 hx2] at hd
      obtain ⟨hx, hr⟩ := chainData_inj r1 x1 r2 x2 (hg1 x1 (List.mem_cons_self _ _))
        (hg2 x2 (List.mem_cons_self _ _))
        (fun s hs => hg1 s (List.mem_cons_of_mem _ hs))
        (fun s hs => hg2 s (List.mem_cons_of_mem _ hs)) hd
      rw [hx, hr]

theorem relOfFrom_root_ne_empty {ns : List String}
    (hg : ∀ s ∈ ns, goodName s = true) (hne : ns ≠ []) : relOfFrom "" ns ≠ "" := by
  cases ns with
  | nil => exact absurd rfl hne
  | cons x r =>
    intro h
    have hx : x ≠ "" := fun h0 =>
      (goodName_spec (hg x (List.mem_cons_self _ _))).1 (data_eq_nil_iff.mpr h0)
    have hd := congrArg String.data h
    rw [relOfFrom_root_data r hx] at hd
    rcases List.append_eq_nil.mp hd with ⟨h1, _⟩
    exact (goodName_spec (hg x (List.mem_cons_self _ _))).1 h1

/-- Soundness of the collector: every emitted relative path is the rendering
of a chain of entry names leading to a file with no link matched. -/
theorem collectEntries_mem_cleanChain :
    ∀ (entries : List (String × FSNode)) (cur : String) (ms : List Matcher)
      (l : List String), collectEntries entries cur ms = .ok l →
      ∀ r ∈ l, ∃ ns, CleanChain ms (.dir entries) cur ns ∧ relOfFrom cur ns = r := by
  intro entries cur ms
  induction entries, cur, ms using collectEntries.induct with
  | case1 cur ms =>
    intro l hok r hr
    rw [collectEntries.eq_def] at hok
    simp only [] at hok
    injection hok with hok
    subst hok
    cases hr
  | case2 cur ms name child rest rel hm ih =>
    intro l hok r hr
    have hm' : matchesAny ms (pathJoin cur name) = true := hm
    rw [collectEntries.eq_def] at hok
    simp only [] at hok
    rw [if_pos hm'] at hok
    obtain ⟨ns, hchain, hrel⟩ := ih l hok r hr
    exact ⟨ns, hchain.weaken (fun e he => List.mem_cons_of_mem _ he), hrel⟩
  | case3 cur ms name rest rel hm =>
    intro l hok r hr
    have hm' : ¬ matchesAny ms (pathJoin cur name) = true := hm
    rw [collectEntries.eq_def] at hok
    simp only [] at hok
    rw [if_neg hm'] at hok
    cases hok
  | case4 cur ms name rest rel hm =>
    intro l hok r hr
    have hm' : ¬ matchesAny ms (pathJoin cur name) = true := hm
    rw [collectEntries.eq_def] at hok
    simp only [] at hok
    rw [if_neg hm'] at hok
    cases hok
  | case5 cur ms name rest rel hm e herr ih =>
    intro l hok r hr
    have hm' : ¬ matchesAny ms (pathJoin cur name) = true := hm
    have herr' : collectEntries rest cur ms = .error e := herr
    rw [collectEntries.eq_def] at hok
    simp only [] at hok
    rw [if_neg hm', herr'] at hok
    cases hok
  | case6 cur ms name rest rel hm tail hrest ih =>
    intro l hok r hr
    have hm' : ¬ matchesAny ms (pathJoin cur name) = true := hm
    have hf : matchesAny ms (pathJoin cur name) = false := by
      rw [Bool.not_eq_true] at hm'
      exact hm'
    have hrest' : collectEntries rest cur ms = .ok tail := hrest
    rw [collectEntries.eq_def] at hok
    simp only [] at hok
    rw [if_neg hm', hrest'] at hok
    simp only [] at hok
    injection hok with hok
    subst hok
    rcases List.mem_cons.mp hr with rfl | hr'
    · exact ⟨[name], .file (List.mem_cons_self _ _) hf, by simp [relOfFrom]⟩
    · obtain ⟨ns, hchain, hrel⟩ := ih tail hrest' r hr'
      exact ⟨ns, hchain.weaken (fun e he => List.mem_cons_of_mem _ he), hrel⟩
  | case7 cur ms name rest rel hm es e hes ih =>
    intro l hok r hr
    have hm' : ¬ matchesAny ms (pathJoin cur name) = true := hm
    have hes' : collectEntries es (pathJoin cur name) ms = .error e := hes
    rw [collectEntries.eq_def] at hok
    simp only [] at hok
    rw [if_neg hm', hes'] at hok
    cases hok
  | case8 cur ms name rest rel hm es sub hes e herr ih1 ih2 =>
    intro l hok r hr
    have hm' : ¬ matchesAny ms (pathJoin cur name) = true := hm
    have hes' : collectEntries es (pathJoin cur name) ms = .ok sub := hes
    have herr' : collectEntries rest cur ms = .error e := herr
    rw [collectEntries.eq_def] at hok
    simp only [] at hok
    rw [if_neg hm', hes'] at hok
    simp only [] at hok
    rw [herr'] at hok
    cases hok
  | case9 cur ms name rest rel hm es sub hes tail hrest ih1 ih2 =>
    intro l hok r hr
    have hm' : ¬ matchesAny ms (pathJoin cur name) = true := hm
    have hf : matchesAny ms (pathJoin cur name) = false := by
      rw [Bool.not_eq_true] at hm'
      exact hm'
    have hes' : collectEntries es (pathJoin cur name) ms = .ok sub := hes
    have hrest' : collectEntries rest cur ms = .ok tail := hrest
    rw [collectEntries.eq_def] at hok
    simp only [] at hok
    rw [if_neg hm', hes'] at hok
    simp only [] at hok
    rw [hrest'] at hok
    simp only [] at hok
    injection hok with hok
    subst hok
    rcases List.mem_append.mp hr with hr' | hr'
    · obtain ⟨ns, hchain, hrel⟩ := ih1 sub hes' r hr'
      refine ⟨name :: ns, .dir (List.mem_cons_self _ _) hf hchain, ?_⟩
      rw [relOfFrom_cons]
      exact hrel
    · obtain ⟨ns, hchain, hrel⟩ := ih2 tail hrest' r hr'
      exact ⟨ns, hchain.weaken (fun e he => List.mem_cons_of_mem _ he), hrel⟩

/-- Root form of the soundness lemma. -/
theorem collectPaths_mem_cleanChain {t : FSNode} {ms : List Matcher} {l : List String}
    (hok : collectPaths t ms = .ok l) :
    ∀ r ∈ l, ∃ ns, CleanChain ms t "" ns ∧ relOfFrom "" ns = r := by
  intro r hr
  cases t with
  | dir entries =>
    simp only [collectPaths] at hok
    exact collectEntries_mem_cleanChain entries "" ms l hok r hr
  | file =>
    simp only [collectPaths] at hok
    cases hok
  | unreadableDir =>
    simp only [collectPaths] at hok
    cases hok
  | statFail =>
    simp only [collectPaths] at hok
    cases hok

/-- A relative path matching an ignore pattern is never collected. -/
theorem not_mem_collect_of_matched {t : FSNode} {ms : List Matcher} {l : List String}
    (hok : collectPaths t ms = .ok l) {r : String} (hmatch : matchesAny ms r = true) :
    r ∉ l := by
  intro hr
  obtain ⟨ns, hchain, hrel⟩ := collectPaths_mem_cleanChain hok r hr
  have hpos : 0 < ns.length := List.length_pos.mpr hchain.ne_nil
  have hfull := hchain.take_unmatched ns.length hpos
  rw [List.take_length, hrel, hmatch] at hfull
  cases hfull

/-- A path whose chain has a matched initial segment (a pruned ancestor
directory) is never collected, over trees with real entry names. -/
theorem not_mem_collect_of_matched_take {t : FSNode} {ms : List Matcher}
    {l : List String} (hg : goodTree t = true) (hok : collectPaths t ms = .ok l)
    {ns : List String} {k : Nat} (hns : ∀ s ∈ ns, goodName s = true) (hk : 0 < k)
    (hmatch : matchesAny ms (relOfFrom "" (ns.take k)) = true) :
    relOfFrom "" ns ∉ l := by
  intro hmem
  obtain ⟨ns', hchain, hrel⟩ := collectPaths_mem_cleanChain hok _ hmem
  have hg' : ∀ s ∈ ns', goodName s = true := cleanChain_names_good hchain hg
  have hne' : ns' ≠ [] := hchain.ne_nil
  have hne : ns ≠ [] := by
    intro h
    subst h
    exact relOfFrom_root_ne_empty hg' hne' hrel
  have heq : ns' = ns := relOfFrom_root_inj hg' hns hne' hne hrel
  subst heq
  have hu := hchain.take_unmatched k hk
  rw [hmatch] at hu
  cases hu

/-- C2: ignore pruning, over trees whose entry names are real filesystem
names (nonempty, separator-free — the only names `readdirSync` returns).
(a) A relative path matching any compiled ignore pattern is in neither
collected snapshot and in none of the three result buckets.  (b) If a chain
of entry names `ns` in either tree reaches a node whose relative path
matches a pattern, then no descendant file at `ns ++ ext` contributes its
relative path to either snapshot or any bucket — even when that path itself
matches no pattern, because the collector prunes at `ns` and never descends. -/
theorem c2_ignore_pruning (E : RegexEngine) (t1 t2 : FSNode)
    (ps : List Pattern) (ms : List Matcher) (l1 l2 : List String)
    (hg1 : goodTree t1 = true) (hg2 : goodTree t2 = true)
    (hc : compilePatterns E ps = .ok ms)
    (h1 : collectPaths t1 ms = .ok l1) (h2 : collectPaths t2 ms = .ok l2) :
    (∀ r : String, matchesAny ms r = true →
      r ∉ l1 ∧ r ∉ l2 ∧
      r ∉ onlyInFirstRel (stringSort l1) (stringSort l2) ∧
      r ∉ onlyInSecondRel (stringSort l1) (stringSort l2) ∧
      r ∉ inBothRel (stringSort l1) (stringSort l2)) ∧
    (∀ (ns ext : List String) (dnode : FSNode), ns ≠ [] →
      matchesAny ms (relOfFrom "" ns) = true →
      ((NodeAt t1 ns dnode ∧ NodeAt t1 (ns ++ ext) FSNode.file) ∨
        (NodeAt t2 ns dnode ∧ NodeAt t2 (ns ++ ext) FSNode.file)) →
      relOfFrom "" (ns ++ ext) ∉ l1 ∧ relOfFrom "" (ns ++ ext) ∉ l2 ∧
      relOfFrom "" (ns ++ ext) ∉ onlyInFirstRel (stringSort l1) (stringSort l2) ∧
      relOfFrom "" (ns ++ ext) ∉ onlyInSecondRel (stringSort l1) (stringSort l2) ∧
      relOfFrom "" (ns ++ ext) ∉ inBothRel (stringSort l1) (stringSort l2)) := by
  have hb : ∀ r : String, r ∉ l1 → r ∉ l2 →
      r ∉ onlyInFirstRel (stringSort l1) (stringSort l2) ∧
      r ∉ onlyInSecondRel (stringSort l1) (stringSort l2) ∧
      r ∉ inBothRel (stringSort l1) (stringSort l2) := by
    intro r hr1 hr2
    refine ⟨fun hm => hr1 ?_, fun hm => hr2 ?_, fun hm => hr1 ?_⟩
    · exact mem_stringSort.mp (List.mem_of_mem_filter hm)
    · exact mem_stringSort.mp (List.mem_of_mem_filter hm)
    · exact mem_stringSort.mp (List.mem_of_mem_filter hm)
  constructor
  · intro r hmatch
    have hr1 : r ∉ l1 := not_mem_collect_of_matched h1 hmatch
    have hr2 : r ∉ l2 := not_mem_collect_of_matched h2 hmatch
    obtain ⟨hb1, hb2, hb3⟩ := hb r hr1 hr2
    exact ⟨hr1, hr2, hb1, hb2, hb3⟩
  · intro ns ext dnode hne hmatch hnode
    have hnsext : ∀ s ∈ ns ++ ext, goodName s = true := by
      rcases hnode with ⟨_, hfile⟩ | ⟨_, hfile⟩
      · exact nodeAt_names_good hfile hg1
      · exact nodeAt_names_good hfile hg2
    have hk : 0 < ns.length := List.length_pos.mpr hne
    have hmatch' : matchesAny ms (relOfFrom "" ((ns ++ ext).take ns.length)) = true := by
      rw [List.take_left]
      exact hmatch
    have hr1 : relOfFrom "" (ns ++ ext) ∉ l1 :=
      not_mem_collect_of_matched_take hg1 h1 hnsext hk hmatch'
    have hr2 : relOfFrom "" (ns ++ ext) ∉ l2 :=
      not_mem_collect_of_matched_take hg2 h2 hnsext hk hmatch'
    obtain ⟨hb1, hb2, hb3⟩ := hb _ hr1 hr2
    exact ⟨hr1, hr2, hb1, hb2, hb3⟩

/-- Witness for C2 at spec scenario 2: a matcher matching exactly `b` prunes
the whole `b` subtree of both trees. -/
theorem c2_witness :
    goodTree sampleTree1 = true ∧ goodTree sampleTree2 = true ∧
    collectPaths sampleTree1 [fun r => r == "b"] = .ok ["a.txt"] ∧
    collectPaths sampleTree2 [fun r => r == "b"] = .ok ["a.txt"] ∧
    matchesAny [fun r => r == "b"] (relOfFrom "" ["b"]) = true ∧
    relOfFrom "" (["b"] ++ ["c.txt"]) ∉ (["a.txt"] : List String) ∧
    relOfFrom "" (["b"] ++ ["c.txt"]) ∉ (["a.txt"] : List String) := by
  have e1 : collectPaths sampleTree1 [fun r => r == "b"] = .ok ["a.txt"] := by
    simp [collectPaths, collectEntries, matchesAny, pathJoin, sampleTree1]
  have e2 : collectPaths sampleTree2 [fun r => r == "b"] = .ok ["a.txt"] := by
    simp [collectPaths, collectEntries, matchesAny, pathJoin, sampleTree2]
  have hnode : NodeAt sampleTree1 ["b"] (.dir [("c.txt", .file)]) :=
    .cons (List.Mem.tail _ (List.Mem.head _)) (.nil _)
  have hfile : NodeAt sampleTree1 (["b"] ++ ["c.txt"]) FSNode.file :=
    .cons (List.Mem.tail _ (List.Mem.head _)) (.cons (List.Mem.head _) (.nil _))
  have h := c2_ignore_pruning sampleEngine sampleTree1 sampleTree2
    [Pattern.regex (fun r => r == "b")] [fun r => r == "b"] ["a.txt"] ["a.txt"]
    rfl rfl rfl e1 e2
  have hcons := h.2 ["b"] ["c.txt"] (.dir [("c.txt", .file)])
    (List.cons_ne_nil _ _) rfl (Or.inl ⟨hnode, hfile⟩)
  exact ⟨rfl, rfl, e1, e2, rfl, hcons.1, hcons.2.1⟩

end Bdg
